import Mathlib

/-!
Verification of the winregal library (src/winregal/winregal.py): a shallow
embedding of `RegKey` / `RegValue` and of the slice of the external `winreg`
API and `os.path` helpers that the library uses, together with proofs about
path parsing, the scoped handle lifecycle, enumeration, iteration and the
recursive dict flattening.

Python strings are modelled as `List Char`; the Windows path separator
`os.path.sep` is the backslash character.  Registry state visible through
the `winreg` primitives is modelled as a finite tree of keys and values;
native handles are modelled as the subtree the handle is open on.  Python
exceptions are modelled by the `PyErr` type, with a predicate recording
which of them are (subclasses of) `WindowsError`.
-/

namespace Winregal

/-- Python strings, as lists of characters. -/
abbrev Str := List Char

/-- Windows `os.path.sep`. -/
def sep : Char := '\\'

/-- Python `s.split(seperator_char)` (always at least one piece; `"".split`
gives `[""]`), specialised to a one-character separator. -/
def pySplit (c : Char) : Str → List Str
  | [] => [[]]
  | a :: as =>
    match pySplit c as with
    | [] => [[]]
    | r :: rs => if a = c then [] :: r :: rs else (a :: r) :: rs

/-- Python `s.upper()`. -/
def pyUpper (s : Str) : Str := s.map Char.toUpper

/-- Two-argument `ntpath.join` (Windows `os.path.join`), restricted to the
drive-letter-free components a registry path is made of: an absolute second
component wins; otherwise a separator is inserted unless the first component
is empty or already ends with the separator. -/
def ntJoin2 (a b : Str) : Str :=
  if b.head? = some sep then b
  else if a = [] ∨ a.getLast? = some sep then a ++ b
  else a ++ sep :: b

/-- Python `TypeError`, `KeyError` and the `WindowsError` family used by the
library.  `keyNotOpen` models `KeyNotOpenException` and `unknownHkey` models
`UnknownHkeyException`; both derive from `WinregalException(WindowsError)`
in the source, so they count as `WindowsError` for `except` clauses. -/
inductive PyErr where
  | windowsError (msg : String)
  | keyNotOpen
  | unknownHkey
  | keyError
  | typeError
deriving DecidableEq, Repr

/-- Which modelled exceptions an `except WindowsError:` clause catches. -/
def PyErr.isWindowsError : PyErr → Bool
  | .windowsError _ => true
  | .keyNotOpen => true
  | .unknownHkey => true
  | .keyError => false
  | .typeError => false

/-- Python `os.path.join(*parts)`: raises `TypeError` when called with no
arguments at all, otherwise folds the two-argument join from the left. -/
def osPathJoin : List Str → Except PyErr Str
  | [] => .error .typeError
  | p :: ps => .ok (ps.foldl ntJoin2 p)

/-- `os.path.split(path)[-1]`: the part after the last separator, which is
the last piece of the separator-split. -/
def osBasename (s : Str) : Str := (pySplit sep s).getLastD []

/-- Joining segments with the separator (`"\\".join`), for specification
statements about rejoined relative paths. -/
def joinSegs : List Str → Str
  | [] => []
  | [x] => x
  | x :: y :: r => x ++ sep :: joinSegs (y :: r)

/-- Boolean membership of a string in a list of strings. -/
def memB (s : Str) : List Str → Bool
  | [] => false
  | x :: r => if x = s then true else memB s r

/-- Boolean "contains no separator character". -/
def sepFreeB : Str → Bool
  | [] => true
  | c :: r => if c = sep then false else sepFreeB r

/-- A relative path in good form: empty, or not ending with the separator
(the shape every path built by joining non-empty separator-free segments
has). -/
def goodPathB (p : Str) : Bool :=
  match p.getLast? with
  | none => true
  | some c => c != sep

/-- The raw payload of a registry value (string or number; the library
passes payloads through untouched, so two shapes suffice). -/
inductive RegData where
  | str (s : String)
  | num (n : Int)
deriving DecidableEq, Repr

/-- `RegValue` from the source: name, data payload and `winreg` type tag. -/
structure RegValue where
  name : Str
  data : RegData
  type : Nat
deriving DecidableEq, Repr

mutual
/-- One registry key as seen through the `winreg` primitives: its value
entries `(name, data, type_tag)` in enumeration order and its subkeys in
enumeration order. -/
inductive RegTree where
  | node (values : List (Str × RegData × Nat)) (subkeys : SubKeys)
/-- The ordered subkeys of a key (a list, spelled out as its own inductive
so that all recursion over trees is structural). -/
inductive SubKeys where
  | nil
  | cons (name : Str) (tree : RegTree) (rest : SubKeys)
end

/-- The value entries of a key. -/
def RegTree.values : RegTree → List (Str × RegData × Nat)
  | .node vs _ => vs

/-- The subkeys of a key. -/
def RegTree.subkeys : RegTree → SubKeys
  | .node _ sks => sks

/-- Resolve a subkey by name (first match, the way the registry resolves an
`OpenKey` path component). -/
def SubKeys.find : SubKeys → Str → Option RegTree
  | .nil, _ => none
  | .cons n t r, s => if n = s then some t else SubKeys.find r s

/-- Subkey names in enumeration order. -/
def SubKeys.names : SubKeys → List Str
  | .nil => []
  | .cons n _ r => n :: SubKeys.names r

/-- Look a value up by name (first match), as `QueryValueEx` does. -/
def findVal : List (Str × RegData × Nat) → Str → Option (RegData × Nat)
  | [], _ => none
  | (m, d, ty) :: r, n => if m = n then some (d, ty) else findVal r n

/-- Walk down a tree along a list of path segments. -/
def RegTree.navigate (t : RegTree) : List Str → Option RegTree
  | [] => some t
  | s :: ss =>
    match t.subkeys.find s with
    | some t' => t'.navigate ss
    | none => none

/-- The segments of a relative path: none for the empty path, else the
separator-split. -/
def pathSegs (p : Str) : List Str := if p = [] then [] else pySplit sep p

/-- The registry content behind the `winreg` API: which tree (if any) each
root identifier denotes. -/
def Env : Type := Nat → Option RegTree

/-- The `WinError 259` message `EnumKey` / `EnumValue` end with. -/
def noMoreData : String := "WinError 259: No more data is available"

/-- The `WinError 2` message for a missing key or value. -/
def fileNotFound : String := "WinError 2: The system cannot find the file specified"

/-- The message for an unusable root handle. -/
def invalidHandle : String := "WinError 6: The handle is invalid"

/-- The `WinError 5` message of a permission failure. -/
def accessDenied : String := "WinError 5: Access is denied"

/-- `winreg.OpenKey(hkey, path)`: resolve the root, walk down the path,
fail with a `WindowsError` otherwise.  The returned native handle is
modelled as the subtree the handle is open on. -/
def winreg_OpenKey (env : Env) (hk : Nat) (p : Str) : Except PyErr RegTree :=
  match env hk with
  | none => .error (.windowsError invalidHandle)
  | some root =>
    match root.navigate (pathSegs p) with
    | some t => .ok t
    | none => .error (.windowsError fileNotFound)

/-- `winreg.QueryValueEx(handle, name)`: the `(data, type)` of the named
value, or a `WindowsError` when no value of that name exists. -/
def winreg_QueryValueEx (t : RegTree) (n : Str) : Except PyErr (RegData × Nat) :=
  match findVal t.values n with
  | some dt => .ok dt
  | none => .error (.windowsError fileNotFound)

/-- Index-probe primitive shared by `EnumKey` and `EnumValue`: the `i`-th
element of a list, or the `WinError 259` exhaustion signal past the end. -/
def listEnum (l : List α) (i : Nat) : Except PyErr α :=
  match l.get? i with
  | some a => .ok a
  | none => .error (.windowsError noMoreData)

/-- `winreg.EnumKey(handle, i)`. -/
def winreg_EnumKey (t : RegTree) (i : Nat) : Except PyErr Str :=
  listEnum t.subkeys.names i

/-- `winreg.EnumValue(handle, i)`. -/
def winreg_EnumValue (t : RegTree) (i : Nat) : Except PyErr (Str × RegData × Nat) :=
  listEnum t.values i

/-- `winreg.CloseKey(handle)`.  CPython's `PyHKEY_Close` accepts `None`
(`bNoneOK`) and treats it as `ERROR_SUCCESS`, so closing an already-cleared
handle is a no-op; closing a live handle releases it and succeeds. -/
def winreg_CloseKey (_h : Option RegTree) : Except PyErr Unit := .ok ()

/-- `winreg.HKEY_CLASSES_ROOT` (0x80000000). -/
def HKEY_CLASSES_ROOT : Nat := 2147483648

/-- `winreg.HKEY_CURRENT_USER` (0x80000001). -/
def HKEY_CURRENT_USER : Nat := 2147483649

/-- `winreg.HKEY_LOCAL_MACHINE` (0x80000002). -/
def HKEY_LOCAL_MACHINE : Nat := 2147483650

/-- `winreg.HKEY_USERS` (0x80000003). -/
def HKEY_USERS : Nat := 2147483651

/-- `winreg.HKEY_PERFORMANCE_DATA` (0x80000004). -/
def HKEY_PERFORMANCE_DATA : Nat := 2147483652

/-- `winreg.HKEY_CURRENT_CONFIG` (0x80000005). -/
def HKEY_CURRENT_CONFIG : Nat := 2147483653

/-- `winreg.HKEY_DYN_DATA` (0x80000006). -/
def HKEY_DYN_DATA : Nat := 2147483654

/-- `RegKey.HKEY_MAP` from the source: the fixed table from root identifier
to its canonical symbolic name, in the source's listing order. -/
def HKEY_MAP : List (Nat × Str) :=
  [ (HKEY_CURRENT_USER, "HKEY_CURRENT_USER".data),
    (HKEY_CLASSES_ROOT, "HKEY_CLASSES_ROOT".data),
    (HKEY_CURRENT_CONFIG, "HKEY_CURRENT_CONFIG".data),
    (HKEY_DYN_DATA, "HKEY_DYN_DATA".data),
    (HKEY_LOCAL_MACHINE, "HKEY_LOCAL_MACHINE".data),
    (HKEY_PERFORMANCE_DATA, "HKEY_PERFORMANCE_DATA".data),
    (HKEY_USERS, "HKEY_USERS".data) ]

/-- Dictionary lookup by numeric key (`self.HKEY_MAP[hkey]`). -/
def lookupName : List (Nat × Str) → Nat → Option Str
  | [], _ => none
  | (k, n) :: r, hk => if k = hk then some n else lookupName r hk

/-- Modelled from the `winreg` module (external collaborator): the numeric
module attributes `getattr(winreg, name, None)` can return.  Besides the
seven `HKEY_*` root constants the module exports many other integer
constants (`REG_*` value-type tags, `KEY_*` access masks, ...); a
representative sample of them, with their real CPython values, is included
because `RegKey.__init__` accepts any of them as a root.  Non-numeric
attributes (functions such as `OpenKey`) fail the source's
`isinstance(hkey, number_type)` test exactly like absent ones, so they are
modelled as absent. -/
def winregIntAttrs : List (Str × Nat) :=
  [ ("HKEY_CLASSES_ROOT".data, HKEY_CLASSES_ROOT),
    ("HKEY_CURRENT_USER".data, HKEY_CURRENT_USER),
    ("HKEY_LOCAL_MACHINE".data, HKEY_LOCAL_MACHINE),
    ("HKEY_USERS".data, HKEY_USERS),
    ("HKEY_PERFORMANCE_DATA".data, HKEY_PERFORMANCE_DATA),
    ("HKEY_CURRENT_CONFIG".data, HKEY_CURRENT_CONFIG),
    ("HKEY_DYN_DATA".data, HKEY_DYN_DATA),
    ("REG_NONE".data, 0),
    ("REG_SZ".data, 1),
    ("REG_EXPAND_SZ".data, 2),
    ("REG_BINARY".data, 3),
    ("REG_DWORD".data, 4),
    ("REG_MULTI_SZ".data, 7),
    ("KEY_READ".data, 131097),
    ("KEY_WRITE".data, 131078),
    ("KEY_ALL_ACCESS".data, 983103) ]

/-- Lookup of a numeric `winreg` attribute by name. -/
def lookupAttr : List (Str × Nat) → Str → Option Nat
  | [], _ => none
  | (n, k) :: r, s => if n = s then some k else lookupAttr r s

/-- `getattr(winreg, name, None)` followed by the numeric check. -/
def winregNumAttr (s : Str) : Option Nat := lookupAttr winregIntAttrs s

/-- The state of one `RegKey` object: `_hkey_name`, `_path`, `_hkey`,
`_key` (the native handle, present only while open) and `_deep`. -/
structure RegKey where
  hkey_name : Str
  path : Str
  hkey : Nat
  key : Option RegTree
  deep : Bool

/-- `RegKey.__init__(path, hkey=None, deep=False)`.  With no explicit root:
split the path on the separator, upper-case the first segment, rejoin the
remaining segments with `os.path.join` (which raises `TypeError` when there
are none), then resolve the name against the `winreg` module attributes and
raise `UnknownHkeyException` unless that yields a number.  With an explicit
root: resolve its name through `HKEY_MAP` (a plain dict lookup, so a
missing identifier raises `KeyError`). -/
def RegKey.init (path : Str) (hkey : Option Nat) (deep : Bool) : Except PyErr RegKey :=
  match hkey with
  | none =>
    let split_path := pySplit sep path
    let hkname := pyUpper (split_path.headD [])
    match osPathJoin (split_path.drop 1) with
    | .error e => .error e
    | .ok path' =>
      match winregNumAttr hkname with
      | some hk => .ok (RegKey.mk hkname path' hk none deep)
      | none => .error .unknownHkey
  | some hk =>
    match lookupName HKEY_MAP hk with
    | some nm => .ok (RegKey.mk nm path hk none deep)
    | none => .error .keyError

/-- The `name` property: `os.path.split(self.path)[-1]`. -/
def RegKey.name (k : RegKey) : Str := osBasename k.path

/-- `RegKey.__enter__`: acquire the native handle via `OpenKey`, storing it
in `_key`; any `WindowsError` propagates unchanged. -/
def RegKey.enter (env : Env) (k : RegKey) : Except PyErr RegKey :=
  match winreg_OpenKey env k.hkey k.path with
  | .ok t => .ok (RegKey.mk k.hkey_name k.path k.hkey (some t) k.deep)
  | .error e => .error e

/-- `RegKey.__exit__(exc_type, exc_val, exc_tb)`: close the native handle
(whatever the pending exception, which is ignored) and clear `_key`. -/
def RegKey.exit (k : RegKey) (_exc : Option PyErr) : Except PyErr RegKey :=
  match winreg_CloseKey k.key with
  | .ok _ => .ok (RegKey.mk k.hkey_name k.path k.hkey none k.deep)
  | .error e => .error e

/-- `RegKey.get_sub_key(sub_path, deep=None)`: default `deep` from the
current key, require an open handle, and construct a fresh (unopened)
`RegKey` on the joined path with the same root. -/
def RegKey.get_sub_key (k : RegKey) (sub_path : Str) (deep : Option Bool) : Except PyErr RegKey :=
  let d := deep.getD k.deep
  match k.key with
  | none => .error .keyNotOpen
  | some _ => RegKey.init (ntJoin2 k.path sub_path) (some k.hkey) d

/-- `RegKey.get_value(name)`: require an open handle, query the value and
wrap it in a `RegValue`. -/
def RegKey.get_value (k : RegKey) (n : Str) : Except PyErr RegValue :=
  match k.key with
  | none => .error .keyNotOpen
  | some t =>
    match winreg_QueryValueEx t n with
    | .ok dt => .ok (RegValue.mk n dt.1 dt.2)
    | .error e => .error e

/-- `RegKey.__getitem__(item)`: try `get_value`; re-raise
`KeyNotOpenException`; on any other `WindowsError` fall back to
`get_sub_key(item)`; anything else propagates. -/
def RegKey.getitem (k : RegKey) (item : Str) : Except PyErr (RegValue ⊕ RegKey) :=
  match k.get_value item with
  | .ok v => .ok (.inl v)
  | .error e =>
    if e = .keyNotOpen then .error e
    else if e.isWindowsError then
      match k.get_sub_key item none with
      | .ok sk => .ok (.inr sk)
      | .error e' => .error e'
    else .error e

/-- The index-probe loop shared by `enum_keys` and `enum_values`: query
indices `i, i+1, ...`, collecting results; the first `WindowsError` (of any
kind) ends the enumeration cleanly, any other exception propagates.  `fuel`
bounds the number of probes so the loop is total; `none` means the bound
was hit before the loop finished (the Python loop would keep going). -/
def enumAll (f : Nat → Except PyErr α) : Nat → Nat → Option (Except PyErr (List α))
  | 0, _ => none
  | Nat.succ fuel, i =>
    match f i with
    | .ok a =>
      match enumAll f fuel (i + 1) with
      | none => none
      | some (.error e) => some (.error e)
      | some (.ok rest) => some (.ok (a :: rest))
    | .error e => if e.isWindowsError then some (.ok []) else some (.error e)

/-- `RegKey.enum_keys()`: require an open handle, then probe `EnumKey`. -/
def RegKey.enum_keys (k : RegKey) (fuel : Nat) : Option (Except PyErr (List Str)) :=
  match k.key with
  | none => some (.error .keyNotOpen)
  | some t => enumAll (winreg_EnumKey t) fuel 0

/-- `RegKey.enum_values()`: require an open handle, then probe
`EnumValue`. -/
def RegKey.enum_values (k : RegKey) (fuel : Nat) :
    Option (Except PyErr (List (Str × RegData × Nat))) :=
  match k.key with
  | none => some (.error .keyNotOpen)
  | some t => enumAll (winreg_EnumValue t) fuel 0

/-- One item yielded by `RegKey.__iter__`: a `RegValue` or a `RegKey`. -/
inductive RegItem where
  | value (v : RegValue)
  | key (k : RegKey)

/-- A handle lifecycle event, recorded (by path) whenever iteration enters
or exits a `with key:` block.  The source does not materialise these; they
instrument the context-manager uses so scoping can be stated. -/
inductive Evt where
  | openK (p : Str)
  | closeK (p : Str)
deriving DecidableEq

/-- The subkey half of `RegKey.__iter__`: for every enumerated child name,
derive the child (inheriting `deep`) and yield it; when `_deep` is set,
additionally `with key:` (open it), yield everything the child's own
iteration produces, and close it before the next sibling.  `recurse` is the
iteration of an opened child at one less fuel. -/
def iterKids (recurse : RegKey → Option (Except PyErr (List RegItem × List Evt)))
    (env : Env) (k : RegKey) : List Str → Option (Except PyErr (List RegItem × List Evt))
  | [] => some (.ok ([], []))
  | key_path :: rest =>
    match RegKey.get_sub_key k key_path none with
    | .error e => some (.error e)
    | .ok key =>
      if k.deep then
        match RegKey.enter env key with
        | .error e => some (.error e)
        | .ok opened =>
          match recurse opened with
          | none => none
          | some (.error e) => some (.error e)
          | some (.ok (items, evts)) =>
            match iterKids recurse env k rest with
            | none => none
            | some (.error e) => some (.error e)
            | some (.ok (items', evts')) =>
              some (.ok (RegItem.key key :: (items ++ items'),
                Evt.openK key.path :: (evts ++ (Evt.closeK key.path :: evts'))))
      else
        match iterKids recurse env k rest with
        | none => none
        | some (.error e) => some (.error e)
        | some (.ok (items', evts')) => some (.ok (RegItem.key key :: items', evts'))

/-- `RegKey.__iter__` as a whole-sequence function: first a `RegValue` for
every enumerated value, then the subkey items of `iterKids`, paired with
the open/close event trace.  `fuel` bounds probe counts and recursion
depth; `none` means it ran out. -/
def iterImpl (env : Env) : Nat → RegKey → Option (Except PyErr (List RegItem × List Evt))
  | 0, _ => none
  | Nat.succ f, k =>
    match RegKey.enum_values k (Nat.succ f) with
    | none => none
    | some (.error e) => some (.error e)
    | some (.ok vts) =>
      match RegKey.enum_keys k (Nat.succ f) with
      | none => none
      | some (.error e) => some (.error e)
      | some (.ok names) =>
        match iterKids (iterImpl env f) env k names with
        | none => none
        | some (.error e) => some (.error e)
        | some (.ok (items, evts)) =>
          some (.ok ((vts.map fun vt => RegItem.value (RegValue.mk vt.1 vt.2.1 vt.2.2)) ++ items,
            evts))

mutual
/-- A value of the Python dict `RegKey.to_dict` builds: a raw payload, a
`RegValue` object, or a nested dict. -/
inductive PyDictVal where
  | raw (d : RegData)
  | rv (v : RegValue)
  | dict (m : PyDict)
/-- An insertion-ordered Python dict with `Str` keys, spelled as its own
inductive so recursion over nested dicts is structural. -/
inductive PyDict where
  | nil
  | cons (k : Str) (v : PyDictVal) (rest : PyDict)
end

/-- Python `res[key] = v`: replace in place if the key is present (keeping
its position), else append. -/
def PyDict.set : PyDict → Str → PyDictVal → PyDict
  | .nil, s, v => .cons s v .nil
  | .cons k' v' r, s, v =>
    if k' = s then .cons k' v r else .cons k' v' (PyDict.set r s v)

/-- Python `res.get(key)`. -/
def PyDict.get : PyDict → Str → Option PyDictVal
  | .nil, _ => none
  | .cons k' v r, s => if k' = s then some v else PyDict.get r s

/-- The value loop of `RegKey.to_dict`: for every enumerated value store
the `RegValue` object when `keep_type` else just its data, under the
value's name. -/
def valsFold (keep_type : Bool) (vts : List (Str × RegData × Nat)) : PyDict :=
  vts.foldl (fun res vt =>
    if keep_type then PyDict.set res vt.1 (PyDictVal.rv (RegValue.mk vt.1 vt.2.1 vt.2.2))
    else PyDict.set res vt.1 (PyDictVal.raw vt.2.1)) PyDict.nil

/-- The subkey loop of `RegKey.to_dict`: for every enumerated child name,
derive the child with `deep=False`, open it in a `with` block, store
`key.to_dict()` (note: called with its default `keep_type=False`) under
`key.name`, and close it.  `recurse` is `to_dict` of an opened child at one
less fuel. -/
def toDictKids (recurse : RegKey → Bool → Option (Except PyErr PyDict))
    (env : Env) (k : RegKey) : List Str → PyDict → Option (Except PyErr PyDict)
  | [], res => some (.ok res)
  | key_path :: rest, res =>
    match RegKey.get_sub_key k key_path (some false) with
    | .error e => some (.error e)
    | .ok key =>
      match RegKey.enter env key with
      | .error e => some (.error e)
      | .ok opened =>
        match recurse opened false with
        | none => none
        | some (.error e) => some (.error e)
        | some (.ok sub) =>
          toDictKids recurse env k rest (PyDict.set res (RegKey.name key) (PyDictVal.dict sub))

/-- `RegKey.to_dict(keep_type=False)` as a total function with a fuel
bound: the value loop then the subkey loop over the enumerated children. -/
def toDictImpl (env : Env) : Nat → RegKey → Bool → Option (Except PyErr PyDict)
  | 0, _, _ => none
  | Nat.succ f, k, keep_type =>
    match RegKey.enum_values k (Nat.succ f) with
    | none => none
    | some (.error e) => some (.error e)
    | some (.ok vts) =>
      match RegKey.enum_keys k (Nat.succ f) with
      | none => none
      | some (.error e) => some (.error e)
      | some (.ok names) => toDictKids (toDictImpl env f) env k names (valsFold keep_type vts)

mutual
/-- Tree-level description of what `__iter__` yields on a key whose handle
is open on tree `t` at relative path `p` under root `hk`/`nm`: the values
as `RegValue`s, then the subkey items. -/
def specIterate (dp : Bool) (hk : Nat) (nm p : Str) : RegTree → List RegItem
  | .node vs sks =>
    (vs.map fun vt => RegItem.value (RegValue.mk vt.1 vt.2.1 vt.2.2)) ++
      specIterKids dp hk nm p sks
/-- Tree-level description of the subkey items: each child as a fresh
unopened handle on the joined path, followed (when `dp`) by the child's own
items, flattened. -/
def specIterKids (dp : Bool) (hk : Nat) (nm p : Str) : SubKeys → List RegItem
  | .nil => []
  | .cons n t r =>
    if dp then
      RegItem.key (RegKey.mk nm (ntJoin2 p n) hk none dp) ::
        (specIterate dp hk nm (ntJoin2 p n) t ++ specIterKids dp hk nm p r)
    else
      RegItem.key (RegKey.mk nm (ntJoin2 p n) hk none dp) :: specIterKids dp hk nm p r
end

mutual
/-- Tree-level description of the open/close event trace `__iter__`
produces: nothing for values, and for each child (when `dp`) an open, the
child's own trace, and the matching close, in sibling order. -/
def specTrace (dp : Bool) (p : Str) : RegTree → List Evt
  | .node _ sks => specTraceKids dp p sks
/-- The event trace of the subkey loop. -/
def specTraceKids (dp : Bool) (p : Str) : SubKeys → List Evt
  | .nil => []
  | .cons n t r =>
    if dp then
      Evt.openK (ntJoin2 p n) ::
        (specTrace dp (ntJoin2 p n) t ++ (Evt.closeK (ntJoin2 p n) :: specTraceKids dp p r))
    else specTraceKids dp p r
end

/-- Stack-based well-nesting check for an event trace: every `closeK`
matches the most recent unmatched `openK` of the same path, and nothing
stays open at the end. -/
def balAux : List Evt → List Str → Bool
  | [], [] => true
  | [], _ :: _ => false
  | .openK p :: es, st => balAux es (p :: st)
  | .closeK _ :: _, [] => false
  | .closeK p :: es, q :: st => if p = q then balAux es st else false

/-- A yielded item carries no live handle: values trivially, keys when
their `_key` slot is empty. -/
def itemClosedB : RegItem → Bool
  | .value _ => true
  | .key k => k.key.isNone

/-- Every yielded item of a list carries no live handle. -/
def allItemsClosed (l : List RegItem) : Bool := l.all itemClosedB

mutual
/-- Tree-level description of `to_dict` on tree `t`: the value entries
folded in first, then each subkey's (always `keep_type=False`) dict stored
under its name, overwriting. -/
def toDictSpec (keep_type : Bool) : RegTree → PyDict
  | .node vs sks => toDictSubs (valsFold keep_type vs) sks
/-- The subkey half of the tree-level `to_dict`, threading the accumulated
dict. -/
def toDictSubs : PyDict → SubKeys → PyDict
  | res, .nil => res
  | res, .cons n t r => toDictSubs (PyDict.set res n (PyDictVal.dict (toDictSpec false t))) r
end

mutual
/-- Fuel sufficient to fully enumerate and recursively traverse a tree. -/
def treeFuel : RegTree → Nat
  | .node vs sks => 2 + vs.length + kidsFuel sks
/-- Fuel contribution of a subkey list. -/
def kidsFuel : SubKeys → Nat
  | .nil => 0
  | .cons _ t r => 1 + treeFuel t + kidsFuel r
end

mutual
/-- Well-formedness of a tree: every subkey name is non-empty and
separator-free, sibling subkey names are distinct, and subtrees are
well-formed (all true of any real registry key). -/
def RegTree.wfB : RegTree → Bool
  | .node _ sks => SubKeys.wfB sks
/-- Well-formedness of a subkey list. -/
def SubKeys.wfB : SubKeys → Bool
  | .nil => true
  | .cons n t r =>
    (!n.isEmpty) && sepFreeB n && (!memB n (SubKeys.names r)) && RegTree.wfB t && SubKeys.wfB r
end

mutual
/-- Every leaf (non-dict) entry of a dict is a `RegValue` object. -/
def PyDictVal.leavesRV : PyDictVal → Bool
  | .raw _ => false
  | .rv _ => true
  | .dict m => PyDict.leavesRV m
/-- Every leaf entry of every binding is a `RegValue` object. -/
def PyDict.leavesRV : PyDict → Bool
  | .nil => true
  | .cons _ v r => PyDictVal.leavesRV v && PyDict.leavesRV r
end

/-- `winreg_OpenKey env hk p` succeeds and yields the subtree `t` — the
handle of an open `RegKey` is consistent with the registry content. -/
def opensTo (env : Env) (hk : Nat) (p : Str) (t : RegTree) : Prop :=
  winreg_OpenKey env hk p = .ok t

/-- Example subtree `C` with the single value `D = 2`. -/
def tC2sub : RegTree := .node [("D".data, .num 2, 4)] .nil

/-- Example key with values `A = 1`, `B = "x"` and subkey `C`. -/
def tC2 : RegTree :=
  .node [("A".data, .num 1, 4), ("B".data, .str "x", 1)] (.cons "C".data tC2sub .nil)

/-- Root content placing `tC2` under `Soft`. -/
def rootC2 : RegTree := .node [] (.cons "Soft".data tC2 .nil)

/-- Registry content for the `toMapping` examples. -/
def envC2 : Env := fun h => if h = HKEY_CURRENT_USER then some rootC2 else none

/-- An open handle on `tC2` at `HKEY_CURRENT_USER\Soft`. -/
def kC2 : RegKey :=
  RegKey.mk "HKEY_CURRENT_USER".data "Soft".data HKEY_CURRENT_USER (some tC2) false

/-- The nested dict `{D: 2}`. -/
def dC2sub : PyDict := .cons "D".data (.raw (.num 2)) .nil

/-- The dict `{A: 1, B: "x", C: {D: 2}}` that `to_dict()` returns. -/
def dC2raw : PyDict :=
  .cons "A".data (.raw (.num 1))
    (.cons "B".data (.raw (.str "x")) (.cons "C".data (.dict dC2sub) .nil))

/-- The dict `to_dict(keep_type=True)` actually returns: `RegValue` objects
for the direct values `A` and `B`, but the nested `D` entry stays raw
because the recursive call does not forward `keep_type`. -/
def dC2keep : PyDict :=
  .cons "A".data (.rv (RegValue.mk "A".data (.num 1) 4))
    (.cons "B".data (.rv (RegValue.mk "B".data (.str "x") 1))
      (.cons "C".data (.dict dC2sub) .nil))

/-- Subkey named `X` holding the value `D = 2`. -/
def tC9sub : RegTree := .node [("D".data, .num 2, 4)] .nil

/-- Key with both a value named `X` and a subkey named `X`. -/
def tC9 : RegTree := .node [("X".data, .num 7, 4)] (.cons "X".data tC9sub .nil)

/-- Root content placing `tC9` under `Coll`. -/
def rootC9 : RegTree := .node [] (.cons "Coll".data tC9 .nil)

/-- Registry content for the name-collision example. -/
def envC9 : Env := fun h => if h = HKEY_CURRENT_USER then some rootC9 else none

/-- An open handle on `tC9` at `HKEY_CURRENT_USER\Coll`. -/
def kC9 : RegKey :=
  RegKey.mk "HKEY_CURRENT_USER".data "Coll".data HKEY_CURRENT_USER (some tC9) false

/-- A key with no values and no subkeys at all. -/
def tEmpty : RegTree := .node [] .nil

/-- An open handle on the empty key at `HKEY_CURRENT_USER\Sw`. -/
def kEmpty : RegKey :=
  RegKey.mk "HKEY_CURRENT_USER".data "Sw".data HKEY_CURRENT_USER (some tEmpty) false

/-- The closed handle left over after `kC2.__exit__`. -/
def kClosed : RegKey :=
  RegKey.mk "HKEY_CURRENT_USER".data "Soft".data HKEY_CURRENT_USER none false

/-- An index probe that always fails with a permission error (never with
the exhaustion signal). -/
def denyProbe : Nat → Except PyErr Str := fun _ => .error (.windowsError accessDenied)

/-! ### Helper lemmas: splitting and joining paths -/

theorem pySplit_ne_nil (c : Char) : ∀ cs : Str, pySplit c cs ≠ []
  | [] => by simp [pySplit]
  | a :: as => by
    have ih := pySplit_ne_nil c as
    cases h : pySplit c as with
    | nil => exact absurd h ih
    | cons r rs =>
      simp only [pySplit, h]
      split <;> simp

theorem pySplit_of_not_mem (c : Char) : ∀ cs : Str, c ∉ cs → pySplit c cs = [cs]
  | [], _ => rfl
  | a :: as, h => by
    have ha : a ≠ c := fun e => h (e ▸ List.mem_cons_self a as)
    have has : c ∉ as := fun e => h (List.mem_cons_of_mem a e)
    have ih := pySplit_of_not_mem c as has
    simp only [pySplit, ih]
    simp [ha]

theorem pySplit_append_cons_left (c : Char) :
    ∀ xs ys : Str, c ∉ xs → pySplit c (xs ++ c :: ys) = xs :: pySplit c ys
  | [], ys, _ => by
    simp only [List.nil_append, pySplit]
    cases h : pySplit c ys with
    | nil => exact absurd h (pySplit_ne_nil c ys)
    | cons r rs => simp
  | a :: xs, ys, h => by
    have ha : a ≠ c := fun e => h (e ▸ List.mem_cons_self a xs)
    have hxs : c ∉ xs := fun e => h (List.mem_cons_of_mem a e)
    have ih := pySplit_append_cons_left c xs ys hxs
    show pySplit c (a :: (xs ++ c :: ys)) = (a :: xs) :: pySplit c ys
    simp only [pySplit, ih]
    simp [ha]

theorem pySplit_append_cons_right (c : Char) :
    ∀ xs ys : Str, c ∉ ys → pySplit c (xs ++ c :: ys) = pySplit c xs ++ [ys]
  | [], ys, h => by
    have hy := pySplit_of_not_mem c ys h
    show pySplit c (c :: ys) = pySplit c [] ++ [ys]
    simp only [pySplit, hy]
    simp
  | a :: xs, ys, h => by
    have ih := pySplit_append_cons_right c xs ys h
    cases hx : pySplit c xs with
    | nil => exact absurd hx (pySplit_ne_nil c xs)
    | cons r rs =>
      rw [hx] at ih
      show pySplit c (a :: (xs ++ c :: ys)) = pySplit c (a :: xs) ++ [ys]
      simp only [pySplit, ih, hx]
      by_cases hac : a = c <;> simp [hac]

theorem getLast?_cons_of_ne_nil {α : Type} {a : α} {l : List α} (h : l ≠ []) :
    (a :: l).getLast? = l.getLast? := by
  cases l with
  | nil => exact absurd rfl h
  | cons b l' => exact List.getLast?_cons_cons

theorem not_mem_of_getLast?_ne {l : Str} {c : Char} (h : l ≠ []) (hm : c ∉ l) :
    l.getLast? ≠ some c := by
  intro he
  exact hm (List.mem_of_mem_getLast? he)

theorem ntJoin2_eq {x y : Str} (hx : x = [] ∨ x.getLast? ≠ some sep) (hy : y ≠ [])
    (hsy : sep ∉ y) : ntJoin2 x y = if x = [] then y else x ++ sep :: y := by
  have hhead : y.head? ≠ some sep := by
    cases y with
    | nil => simp
    | cons a as =>
      simp only [List.head?, ne_eq, Option.some.injEq]
      intro e
      exact hsy (e ▸ List.mem_cons_self a as)
  rcases hx with hx | hx
  · subst hx
    simp [ntJoin2, hhead]
  · by_cases hxe : x = []
    · subst hxe; simp [ntJoin2, hhead]
    · simp [ntJoin2, hhead, hxe, hx]

theorem joinSegs_append_head (x y : Str) (r : List Str) :
    joinSegs ((x ++ sep :: y) :: r) = x ++ sep :: joinSegs (y :: r) := by
  cases r with
  | nil => rfl
  | cons z r' => simp [joinSegs, List.append_assoc]

theorem foldl_ntJoin2_eq_joinSegs :
    ∀ (rest : List Str) (x : Str), x ≠ [] → x.getLast? ≠ some sep →
      (∀ s ∈ rest, s ≠ [] ∧ sep ∉ s) →
      List.foldl ntJoin2 x rest = joinSegs (x :: rest)
  | [], x, _, _, _ => by simp [joinSegs]
  | y :: r, x, hx, hlast, hrest => by
    have hy := hrest y (List.mem_cons_self y r)
    have hj : ntJoin2 x y = x ++ sep :: y := by
      rw [ntJoin2_eq (Or.inr hlast) hy.1 hy.2]
      simp [hx]
    have hx' : (x ++ sep :: y : Str) ≠ [] := by simp
    have hlast' : (x ++ sep :: y : Str).getLast? ≠ some sep := by
      rw [List.getLast?_append_cons, getLast?_cons_of_ne_nil hy.1]
      exact not_mem_of_getLast?_ne hy.1 hy.2
    have hrest' : ∀ s ∈ r, s ≠ [] ∧ sep ∉ s := fun s hs => hrest s (List.mem_cons_of_mem y hs)
    calc List.foldl ntJoin2 x (y :: r)
        = List.foldl ntJoin2 (x ++ sep :: y) r := by rw [List.foldl_cons, hj]
      _ = joinSegs ((x ++ sep :: y) :: r) := foldl_ntJoin2_eq_joinSegs r _ hx' hlast' hrest'
      _ = x ++ sep :: joinSegs (y :: r) := joinSegs_append_head x y r

theorem goodPathB_getLast {p : Str} (hp : goodPathB p = true) (hne : p ≠ []) :
    p.getLast? ≠ some sep := by
  unfold goodPathB at hp
  cases h : p.getLast? with
  | none => simp [h] at hp ⊢
  | some c =>
    rw [h] at hp
    simp only [bne_iff_ne, ne_eq] at hp
    simp [hp]

theorem pathSegs_ntJoin2 {p y : Str} (hp : goodPathB p = true) (hy : y ≠ [])
    (hsy : sep ∉ y) : pathSegs (ntJoin2 p y) = pathSegs p ++ [y] := by
  by_cases hpe : p = []
  · subst hpe
    rw [ntJoin2_eq (Or.inl rfl) hy hsy]
    simp [pathSegs, hy, pySplit_of_not_mem sep y hsy]
  · rw [ntJoin2_eq (Or.inr (goodPathB_getLast hp hpe)) hy hsy]
    simp only [hpe, if_false]
    have hne : (p ++ sep :: y : Str) ≠ [] := by simp
    simp [pathSegs, hne, hpe, pySplit_append_cons_right sep p y hsy]

theorem goodPathB_ntJoin2 {p y : Str} (hp : goodPathB p = true) (hy : y ≠ [])
    (hsy : sep ∉ y) : goodPathB (ntJoin2 p y) = true := by
  have hylast : y.getLast? ≠ some sep := not_mem_of_getLast?_ne hy hsy
  by_cases hpe : p = []
  · subst hpe
    rw [ntJoin2_eq (Or.inl rfl) hy hsy]
    simp only [if_true]
    unfold goodPathB
    cases h : y.getLast? with
    | none => rfl
    | some c => rw [h] at hylast; simpa using fun e => hylast (by rw [e])
  · rw [ntJoin2_eq (Or.inr (goodPathB_getLast hp hpe)) hy hsy]
    simp only [hpe, if_false]
    unfold goodPathB
    rw [List.getLast?_append_cons, getLast?_cons_of_ne_nil hy]
    cases h : y.getLast? with
    | none => rfl
    | some c => rw [h] at hylast; simpa using fun e => hylast (by rw [e])

theorem osBasename_ntJoin2 {p y : Str} (hp : goodPathB p = true) (hy : y ≠ [])
    (hsy : sep ∉ y) : osBasename (ntJoin2 p y) = y := by
  by_cases hpe : p = []
  · subst hpe
    rw [ntJoin2_eq (Or.inl rfl) hy hsy]
    simp [osBasename, pySplit_of_not_mem sep y hsy]
  · rw [ntJoin2_eq (Or.inr (goodPathB_getLast hp hpe)) hy hsy]
    simp only [hpe, if_false]
    rw [osBasename, pySplit_append_cons_right sep p y hsy]
    simp

/-! ### Helper lemmas: boolean predicates -/

theorem memB_eq_false {s : Str} : ∀ l : List Str, memB s l = false ↔ s ∉ l
  | [] => by simp [memB]
  | x :: r => by
    have ih := @memB_eq_false s r
    by_cases hx : x = s
    · subst hx; simp [memB]
    · simp [memB, hx, ih, Ne.symm hx]

theorem sepFreeB_iff : ∀ s : Str, sepFreeB s = true ↔ sep ∉ s
  | [] => by simp [sepFreeB]
  | c :: r => by
    have ih := sepFreeB_iff r
    by_cases hc : c = sep
    · subst hc; simp [sepFreeB]
    · simp only [sepFreeB, hc, if_false, ih, List.mem_cons]
      constructor
      · intro hr h
        rcases h with h | h
        · exact hc h.symm
        · exact hr h
      · intro h hr
        exact h (Or.inr hr)

theorem wfB_cons {n : Str} {t : RegTree} {r : SubKeys} (h : SubKeys.wfB (.cons n t r) = true) :
    n ≠ [] ∧ sep ∉ n ∧ memB n (SubKeys.names r) = false ∧
      RegTree.wfB t = true ∧ SubKeys.wfB r = true := by
  simp only [SubKeys.wfB, Bool.and_eq_true, Bool.not_eq_true'] at h
  obtain ⟨⟨⟨⟨h1, h2⟩, h3⟩, h4⟩, h5⟩ := h
  refine ⟨?_, (sepFreeB_iff n).mp h2, h3, h4, h5⟩
  intro e
  subst e
  simp at h1

theorem find_mem_names : ∀ (sks : SubKeys) (s : Str) (t : RegTree),
    SubKeys.find sks s = some t → s ∈ SubKeys.names sks
  | .nil, s, t, h => by simp [SubKeys.find] at h
  | .cons n t' r, s, t, h => by
    by_cases hn : n = s
    · subst hn; simp [SubKeys.names]
    · simp only [SubKeys.find, hn, if_false] at h
      exact List.mem_cons_of_mem n (find_mem_names r s t h)

theorem treeFuel_pos (t : RegTree) : 2 ≤ treeFuel t := by
  cases t with
  | node vs sks =>
    simp only [treeFuel]
    omega

theorem names_length_le_kidsFuel : ∀ sks : SubKeys,
    (SubKeys.names sks).length ≤ kidsFuel sks
  | .nil => by simp [SubKeys.names, kidsFuel]
  | .cons n t r => by
    have ih := names_length_le_kidsFuel r
    have := treeFuel_pos t
    simp only [SubKeys.names, kidsFuel, List.length_cons]
    omega

/-! ### Helper lemmas: the enumeration loop -/

theorem enumAll_succ {α : Type} (f : Nat → Except PyErr α) (fuel i : Nat) :
    enumAll f (fuel + 1) i =
      match f i with
      | .ok a =>
        match enumAll f fuel (i + 1) with
        | none => none
        | some (.error e) => some (.error e)
        | some (.ok rest) => some (.ok (a :: rest))
      | .error e => if e.isWindowsError then some (.ok []) else some (.error e) := rfl

theorem listEnum_eq_ok {α : Type} {l : List α} {i : Nat} {a : α} (h : l[i]? = some a) :
    listEnum l i = .ok a := by
  simp [listEnum, h]

theorem listEnum_eq_err {α : Type} {l : List α} {i : Nat} (h : l.length ≤ i) :
    listEnum l i = .error (.windowsError noMoreData) := by
  simp [listEnum, List.getElem?_eq_none h]

theorem enumAll_listEnum {α : Type} (l : List α) :
    ∀ (fuel i : Nat), l.length ≤ i + fuel →
      enumAll (listEnum l) (fuel + 1) i = some (.ok (l.drop i))
  | 0, i, h => by
    rw [enumAll_succ, listEnum_eq_err (by omega)]
    simp [PyErr.isWindowsError, List.drop_eq_nil_of_le (show l.length ≤ i by omega)]
  | fuel + 1, i, h => by
    rw [enumAll_succ]
    cases hg : l[i]? with
    | none =>
      have hle : l.length ≤ i := List.getElem?_eq_none_iff.mp hg
      rw [listEnum_eq_err hle]
      simp [PyErr.isWindowsError, List.drop_eq_nil_of_le hle]
    | some a =>
      obtain ⟨hlt, he⟩ := List.getElem?_eq_some_iff.mp hg
      have ih := enumAll_listEnum l fuel (i + 1) (by omega)
      have hdrop : l.drop i = a :: l.drop (i + 1) := by
        rw [List.drop_eq_getElem_cons hlt, he]
      simp only [listEnum_eq_ok hg, ih, hdrop]

/-! ### Helper lemmas: navigation and opening children -/

theorem navigate_append : ∀ (segs : List Str) (t : RegTree) (s : Str),
    RegTree.navigate t (segs ++ [s]) =
      (RegTree.navigate t segs).bind (fun t' => SubKeys.find (RegTree.subkeys t') s)
  | [], t, s => by
    simp only [List.nil_append, RegTree.navigate, Option.bind]
    cases h : SubKeys.find (RegTree.subkeys t) s <;> rfl
  | s0 :: segs, t, s => by
    have ih := fun t' => navigate_append segs t' s
    simp only [List.cons_append, RegTree.navigate]
    cases h : SubKeys.find (RegTree.subkeys t) s0 with
    | none => rfl
    | some t' => exact ih t'

theorem opensTo_child {env : Env} {hk : Nat} {p : Str} {t t' : RegTree} {n : Str}
    (hopen : opensTo env hk p t) (hp : goodPathB p = true) (hn : n ≠ []) (hsn : sep ∉ n)
    (hfind : SubKeys.find (RegTree.subkeys t) n = some t') :
    opensTo env hk (ntJoin2 p n) t' := by
  unfold opensTo winreg_OpenKey at hopen ⊢
  cases henv : env hk with
  | none => simp [henv] at hopen
  | some root =>
    simp only [henv] at hopen ⊢
    cases hnav : RegTree.navigate root (pathSegs p) with
    | none => simp [hnav] at hopen
    | some t0 =>
      simp only [hnav] at hopen
      have ht0 : t0 = t := by simpa using hopen
      subst ht0
      rw [pathSegs_ntJoin2 hp hn hsn, navigate_append, hnav]
      simp [hfind]

/-! ### Helper lemmas: Python dict operations -/

theorem get_set_eq : ∀ (d : PyDict) (s : Str) (v : PyDictVal),
    PyDict.get (PyDict.set d s v) s = some v
  | .nil, s, v => by simp [PyDict.set, PyDict.get]
  | .cons k' v' r, s, v => by
    by_cases hk : k' = s
    · subst hk; simp [PyDict.set, PyDict.get]
    · simp [PyDict.set, PyDict.get, hk, get_set_eq r s v]

theorem get_set_ne : ∀ (d : PyDict) (s s' : Str) (v : PyDictVal), s ≠ s' →
    PyDict.get (PyDict.set d s v) s' = PyDict.get d s'
  | .nil, s, s', v, h => by simp [PyDict.set, PyDict.get, h]
  | .cons k' v' r, s, s', v, h => by
    by_cases hk : k' = s
    · subst hk; simp [PyDict.set, PyDict.get, h]
    · simp [PyDict.set, PyDict.get, hk, get_set_ne r s s' v h]

theorem toDictSubs_get_not_mem : ∀ (sks : SubKeys) (res : PyDict) (s : Str),
    s ∉ SubKeys.names sks → PyDict.get (toDictSubs res sks) s = PyDict.get res s
  | .nil, res, s, _ => by simp [toDictSubs]
  | .cons n t r, res, s, h => by
    have hn : n ≠ s := fun e => h (e ▸ List.mem_cons_self n (SubKeys.names r))
    have hr : s ∉ SubKeys.names r := fun e => h (List.mem_cons_of_mem n e)
    simp only [toDictSubs, toDictSubs_get_not_mem r _ s hr]
    exact get_set_ne res n s _ hn

theorem toDictSubs_get_find : ∀ (sks : SubKeys) (res : PyDict) (s : Str) (tX : RegTree),
    SubKeys.wfB sks = true → SubKeys.find sks s = some tX →
    PyDict.get (toDictSubs res sks) s = some (PyDictVal.dict (toDictSpec false tX))
  | .nil, res, s, tX, _, hf => by simp [SubKeys.find] at hf
  | .cons n t r, res, s, tX, hwf, hf => by
    obtain ⟨_, _, hnr, _, hwr⟩ := wfB_cons hwf
    by_cases hn : n = s
    · subst hn
      simp only [SubKeys.find, if_pos] at hf
      rw [Option.some.injEq] at hf
      subst hf
      have hnotr : n ∉ SubKeys.names r := (memB_eq_false (SubKeys.names r)).mp hnr
      simp only [toDictSubs, toDictSubs_get_not_mem r _ n hnotr]
      exact get_set_eq res n _
    · simp only [SubKeys.find, hn, if_false] at hf
      simp only [toDictSubs]
      exact toDictSubs_get_find r _ s tX hwr hf

/-! ### Helper lemmas: deriving and opening child keys -/

theorem get_sub_key_open {nm p : Str} {hk : Nat} {t0 : RegTree} {dp : Bool}
    {sub : Str} {dopt : Option Bool} (hnm : lookupName HKEY_MAP hk = some nm) :
    RegKey.get_sub_key (RegKey.mk nm p hk (some t0) dp) sub dopt =
      .ok (RegKey.mk nm (ntJoin2 p sub) hk none (dopt.getD dp)) := by
  simp [RegKey.get_sub_key, RegKey.init, hnm]

theorem enter_opensTo {env : Env} {hk : Nat} {nm p : Str} {t : RegTree} {d : Bool}
    (hopen : opensTo env hk p t) :
    RegKey.enter env (RegKey.mk nm p hk none d) = .ok (RegKey.mk nm p hk (some t) d) := by
  unfold opensTo at hopen
  simp [RegKey.enter, hopen]

theorem enum_values_open {nm p : Str} {hk : Nat} {vs : List (Str × RegData × Nat)}
    {sks : SubKeys} {dp : Bool} {f : Nat} (hlen : vs.length ≤ f) :
    RegKey.enum_values (RegKey.mk nm p hk (some (.node vs sks)) dp) (f + 1) =
      some (.ok vs) := by
  have hfn : winreg_EnumValue (RegTree.node vs sks) = listEnum vs := by
    funext i
    simp [winreg_EnumValue, RegTree.values]
  simp only [RegKey.enum_values, hfn]
  rw [enumAll_listEnum vs f 0 (by omega)]
  simp

theorem enum_keys_open {nm p : Str} {hk : Nat} {vs : List (Str × RegData × Nat)}
    {sks : SubKeys} {dp : Bool} {f : Nat} (hlen : (SubKeys.names sks).length ≤ f) :
    RegKey.enum_keys (RegKey.mk nm p hk (some (.node vs sks)) dp) (f + 1) =
      some (.ok (SubKeys.names sks)) := by
  have hfn : winreg_EnumKey (RegTree.node vs sks) = listEnum (SubKeys.names sks) := by
    funext i
    simp [winreg_EnumKey, RegTree.subkeys]
  simp only [RegKey.enum_keys, hfn]
  rw [enumAll_listEnum (SubKeys.names sks) f 0 (by omega)]
  simp

/-! ### Refinement: `__iter__` computes the tree-level iteration -/

theorem iterKids_sound (env : Env) (hk : Nat) (nm : Str) (f : Nat)
    (hrec : ∀ (p' : Str) (t' : RegTree) (dp' : Bool),
      opensTo env hk p' t' → goodPathB p' = true → RegTree.wfB t' = true →
      treeFuel t' ≤ f →
      iterImpl env f (RegKey.mk nm p' hk (some t') dp') =
        some (.ok (specIterate dp' hk nm p' t', specTrace dp' p' t')))
    (hnm : lookupName HKEY_MAP hk = some nm) :
    ∀ (sks : SubKeys) (p : Str) (t0 : RegTree) (dp : Bool),
      opensTo env hk p t0 → goodPathB p = true →
      (∀ s t', SubKeys.find sks s = some t' → SubKeys.find (RegTree.subkeys t0) s = some t') →
      SubKeys.wfB sks = true → kidsFuel sks ≤ f →
      iterKids (iterImpl env f) env (RegKey.mk nm p hk (some t0) dp) (SubKeys.names sks) =
        some (.ok (specIterKids dp hk nm p sks, specTraceKids dp p sks))
  | .nil, p, t0, dp, _, _, _, _, _ => by
    simp [SubKeys.names, iterKids, specIterKids, specTraceKids]
  | .cons n t r, p, t0, dp, hopen, hp, hsub, hwf, hfuel => by
    obtain ⟨hn, hsn, hnr, hwt, hwr⟩ := wfB_cons hwf
    have hfind0 : SubKeys.find (RegTree.subkeys t0) n = some t :=
      hsub n t (by simp [SubKeys.find])
    have hchild : opensTo env hk (ntJoin2 p n) t := opensTo_child hopen hp hn hsn hfind0
    have hp' : goodPathB (ntJoin2 p n) = true := goodPathB_ntJoin2 hp hn hsn
    have hsub' : ∀ s t', SubKeys.find r s = some t' →
        SubKeys.find (RegTree.subkeys t0) s = some t' := by
      intro s t' hf'
      apply hsub s t'
      have hs : s ∈ SubKeys.names r := find_mem_names r s t' hf'
      have hns : ¬n = s := by
        intro e
        subst e
        exact ((memB_eq_false (SubKeys.names r)).mp hnr) hs
      simp [SubKeys.find, hns, hf']
    have hfuel_t : treeFuel t ≤ f := by
      simp only [kidsFuel] at hfuel
      omega
    have hfuel_r : kidsFuel r ≤ f := by
      simp only [kidsFuel] at hfuel
      omega
    have ihr := iterKids_sound env hk nm f hrec hnm r p t0 dp hopen hp hsub' hwr hfuel_r
    show iterKids (iterImpl env f) env (RegKey.mk nm p hk (some t0) dp)
        (n :: SubKeys.names r) = _
    rw [iterKids]
    rw [get_sub_key_open hnm]
    simp only [Option.getD_none]
    cases dp with
    | false =>
      simp only [ihr]
      simp [specIterKids, specTraceKids]
    | true =>
      simp only [enter_opensTo hchild]
      rw [hrec (ntJoin2 p n) t true hchild hp' hwt hfuel_t]
      simp only [ihr]
      simp [specIterKids, specTraceKids]

theorem iterImpl_sound :
    ∀ (fuel : Nat) (env : Env) (hk : Nat) (nm : Str), lookupName HKEY_MAP hk = some nm →
      ∀ (p : Str) (t : RegTree) (dp : Bool),
        opensTo env hk p t → goodPathB p = true → RegTree.wfB t = true →
        treeFuel t ≤ fuel →
        iterImpl env fuel (RegKey.mk nm p hk (some t) dp) =
          some (.ok (specIterate dp hk nm p t, specTrace dp p t)) := by
  intro fuel
  induction fuel with
  | zero =>
    intro env hk nm hnm p t dp hopen hp hwf hfuel
    have := treeFuel_pos t
    omega
  | succ f ih =>
    intro env hk nm hnm p t dp hopen hp hwf hfuel
    cases t with
    | node vs sks =>
      have hfuel' : 2 + vs.length + kidsFuel sks ≤ f + 1 := by
        simpa only [treeFuel] using hfuel
      have hnames := names_length_le_kidsFuel sks
      have hev := @enum_values_open nm p hk vs sks dp f (by omega)
      have hek := @enum_keys_open nm p hk vs sks dp f (by omega)
      have hwk : SubKeys.wfB sks = true := by
        simpa only [RegTree.wfB] using hwf
      have hkids := iterKids_sound env hk nm f
        (fun p' t' dp' h1 h2 h3 h4 => ih env hk nm hnm p' t' dp' h1 h2 h3 h4) hnm
        sks p (.node vs sks) dp hopen hp (fun s t' hf' => hf') hwk (by omega)
      show iterImpl env (f + 1) (RegKey.mk nm p hk (some (.node vs sks)) dp) = _
      rw [iterImpl]
      rw [hev, hek]
      simp only [hkids]
      simp [specIterate, specTrace]

/-! ### Refinement: `to_dict` computes the tree-level mapping -/

theorem toDictKids_sound (env : Env) (hk : Nat) (nm : Str) (f : Nat)
    (hrec : ∀ (p' : Str) (t' : RegTree),
      opensTo env hk p' t' → goodPathB p' = true → RegTree.wfB t' = true →
      treeFuel t' ≤ f →
      toDictImpl env f (RegKey.mk nm p' hk (some t') false) false =
        some (.ok (toDictSpec false t')))
    (hnm : lookupName HKEY_MAP hk = some nm) :
    ∀ (sks : SubKeys) (p : Str) (t0 : RegTree) (dp : Bool) (res : PyDict),
      opensTo env hk p t0 → goodPathB p = true →
      (∀ s t', SubKeys.find sks s = some t' → SubKeys.find (RegTree.subkeys t0) s = some t') →
      SubKeys.wfB sks = true → kidsFuel sks ≤ f →
      toDictKids (toDictImpl env f) env (RegKey.mk nm p hk (some t0) dp)
        (SubKeys.names sks) res = some (.ok (toDictSubs res sks))
  | .nil, p, t0, dp, res, _, _, _, _, _ => by
    simp [SubKeys.names, toDictKids, toDictSubs]
  | .cons n t r, p, t0, dp, res, hopen, hp, hsub, hwf, hfuel => by
    obtain ⟨hn, hsn, hnr, hwt, hwr⟩ := wfB_cons hwf
    have hfind0 : SubKeys.find (RegTree.subkeys t0) n = some t :=
      hsub n t (by simp [SubKeys.find])
    have hchild : opensTo env hk (ntJoin2 p n) t := opensTo_child hopen hp hn hsn hfind0
    have hp' : goodPathB (ntJoin2 p n) = true := goodPathB_ntJoin2 hp hn hsn
    have hsub' : ∀ s t', SubKeys.find r s = some t' →
        SubKeys.find (RegTree.subkeys t0) s = some t' := by
      intro s t' hf'
      apply hsub s t'
      have hs : s ∈ SubKeys.names r := find_mem_names r s t' hf'
      have hns : ¬n = s := by
        intro e
        subst e
        exact ((memB_eq_false (SubKeys.names r)).mp hnr) hs
      simp [SubKeys.find, hns, hf']
    have hfuel_t : treeFuel t ≤ f := by
      simp only [kidsFuel] at hfuel
      omega
    have hfuel_r : kidsFuel r ≤ f := by
      simp only [kidsFuel] at hfuel
      omega
    have hname : RegKey.name (RegKey.mk nm (ntJoin2 p n) hk none false) = n := by
      simp only [RegKey.name]
      exact osBasename_ntJoin2 hp hn hsn
    have ihr := toDictKids_sound env hk nm f hrec hnm r p t0 dp
      (PyDict.set res n (PyDictVal.dict (toDictSpec false t))) hopen hp hsub' hwr hfuel_r
    show toDictKids (toDictImpl env f) env (RegKey.mk nm p hk (some t0) dp)
        (n :: SubKeys.names r) res = _
    rw [toDictKids]
    rw [get_sub_key_open hnm]
    simp only [Option.getD_some]
    simp only [enter_opensTo hchild]
    rw [hrec (ntJoin2 p n) t hchild hp' hwt hfuel_t]
    simp only [hname, ihr]
    simp [toDictSubs]

theorem toDictImpl_sound :
    ∀ (fuel : Nat) (env : Env) (hk : Nat) (nm : Str), lookupName HKEY_MAP hk = some nm →
      ∀ (p : Str) (t : RegTree) (dp : Bool) (keep_type : Bool),
        opensTo env hk p t → goodPathB p = true → RegTree.wfB t = true →
        treeFuel t ≤ fuel →
        toDictImpl env fuel (RegKey.mk nm p hk (some t) dp) keep_type =
          some (.ok (toDictSpec keep_type t)) := by
  intro fuel
  induction fuel with
  | zero =>
    intro env hk nm hnm p t dp keep_type hopen hp hwf hfuel
    have := treeFuel_pos t
    omega
  | succ f ih =>
    intro env hk nm hnm p t dp keep_type hopen hp hwf hfuel
    cases t with
    | node vs sks =>
      have hfuel' : 2 + vs.length + kidsFuel sks ≤ f + 1 := by
        simpa only [treeFuel] using hfuel
      have hnames := names_length_le_kidsFuel sks
      have hev := @enum_values_open nm p hk vs sks dp f (by omega)
      have hek := @enum_keys_open nm p hk vs sks dp f (by omega)
      have hwk : SubKeys.wfB sks = true := by
        simpa only [RegTree.wfB] using hwf
      have hkids := toDictKids_sound env hk nm f
        (fun p' t' h1 h2 h3 h4 => ih env hk nm hnm p' t' false false h1 h2 h3 h4) hnm
        sks p (.node vs sks) dp (valsFold keep_type vs) hopen hp
        (fun s t' hf' => hf') hwk (by omega)
      show toDictImpl env (f + 1) (RegKey.mk nm p hk (some (.node vs sks)) dp) keep_type = _
      rw [toDictImpl]
      rw [hev, hek]
      simp only [hkids]
      simp [toDictSpec]

/-! ### Properties of the tree-level iteration -/

theorem specTraceKids_false (p : Str) : ∀ sks : SubKeys, specTraceKids false p sks = []
  | .nil => by simp [specTraceKids]
  | .cons n t r => by
    have ih := specTraceKids_false p r
    simp [specTraceKids, ih]

theorem specTrace_false (p : Str) (t : RegTree) : specTrace false p t = [] := by
  cases t with
  | node vs sks => simp [specTrace, specTraceKids_false]

theorem specIterKids_false (hk : Nat) (nm p : Str) : ∀ sks : SubKeys,
    specIterKids false hk nm p sks =
      (SubKeys.names sks).map (fun n => RegItem.key (RegKey.mk nm (ntJoin2 p n) hk none false))
  | .nil => by simp [specIterKids, SubKeys.names]
  | .cons n t r => by
    have ih := specIterKids_false hk nm p r
    simp [specIterKids, SubKeys.names, ih]

theorem balAux_open (q : Str) (es : List Evt) (st : List Str) :
    balAux (Evt.openK q :: es) st = balAux es (q :: st) := rfl

theorem balAux_close_eq (q : Str) (es : List Evt) (st : List Str) :
    balAux (Evt.closeK q :: es) (q :: st) = balAux es st := by
  simp [balAux]

mutual
theorem specIterate_closed (dp : Bool) (hk : Nat) (nm : Str) :
    ∀ (p : Str) (t : RegTree), allItemsClosed (specIterate dp hk nm p t) = true
  | p, .node vs sks => by
    have ih := specIterKids_closed dp hk nm p sks
    simp only [specIterate, allItemsClosed, List.all_append]
    refine (Bool.and_eq_true _ _).mpr ⟨?_, ih⟩
    rw [List.all_eq_true]
    intro x hx
    rw [List.mem_map] at hx
    obtain ⟨vt, _, heq⟩ := hx
    rw [← heq]
    rfl
theorem specIterKids_closed (dp : Bool) (hk : Nat) (nm : Str) :
    ∀ (p : Str) (sks : SubKeys), allItemsClosed (specIterKids dp hk nm p sks) = true
  | p, .nil => by simp [specIterKids, allItemsClosed]
  | p, .cons n t r => by
    have iht := specIterate_closed dp hk nm (ntJoin2 p n) t
    have ihr := specIterKids_closed dp hk nm p r
    cases dp with
    | false =>
      simp only [specIterKids, if_false, Bool.false_eq_true, allItemsClosed, List.all_cons]
      simp only [allItemsClosed] at ihr
      simp [itemClosedB, ihr]
    | true =>
      simp only [specIterKids, if_true, allItemsClosed, List.all_cons, List.all_append]
      simp only [allItemsClosed] at iht ihr
      simp [itemClosedB, iht, ihr]
end

mutual
theorem specTrace_bal (dp : Bool) :
    ∀ (p : Str) (t : RegTree) (rest : List Evt) (st : List Str),
      balAux (specTrace dp p t ++ rest) st = balAux rest st
  | p, .node vs sks, rest, st => by
    simp only [specTrace]
    exact specTraceKids_bal dp p sks rest st
theorem specTraceKids_bal (dp : Bool) :
    ∀ (p : Str) (sks : SubKeys) (rest : List Evt) (st : List Str),
      balAux (specTraceKids dp p sks ++ rest) st = balAux rest st
  | p, .nil, rest, st => by simp [specTraceKids]
  | p, .cons n t r, rest, st => by
    cases dp with
    | false =>
      simp only [specTraceKids, if_false, Bool.false_eq_true]
      exact specTraceKids_bal false p r rest st
    | true =>
      have iht := specTrace_bal true (ntJoin2 p n) t
        (Evt.closeK (ntJoin2 p n) :: (specTraceKids true p r ++ rest)) (ntJoin2 p n :: st)
      have ihr := specTraceKids_bal true p r rest st
      have hassoc : specTraceKids true p (SubKeys.cons n t r) ++ rest =
          Evt.openK (ntJoin2 p n) ::
            (specTrace true (ntJoin2 p n) t ++
              (Evt.closeK (ntJoin2 p n) :: (specTraceKids true p r ++ rest))) := by
        simp [specTraceKids, List.append_assoc]
      rw [hassoc, balAux_open, iht, balAux_close_eq]
      exact ihr
end

/-! ### Root-name resolution -/

theorem root_name_resolves {s : Str} (h : s ∈ HKEY_MAP.map Prod.snd) :
    ∃ hk, winregNumAttr s = some hk ∧ lookupName HKEY_MAP hk = some s := by
  simp only [HKEY_MAP, List.map_cons, List.map_nil, List.mem_cons, List.not_mem_nil,
    or_false] at h
  rcases h with h | h | h | h | h | h | h <;> subst h
  · exact ⟨HKEY_CURRENT_USER, by decide, by decide⟩
  · exact ⟨HKEY_CLASSES_ROOT, by decide, by decide⟩
  · exact ⟨HKEY_CURRENT_CONFIG, by decide, by decide⟩
  · exact ⟨HKEY_DYN_DATA, by decide, by decide⟩
  · exact ⟨HKEY_LOCAL_MACHINE, by decide, by decide⟩
  · exact ⟨HKEY_PERFORMANCE_DATA, by decide, by decide⟩
  · exact ⟨HKEY_USERS, by decide, by decide⟩

/-! ## The claims -/

/-- C1 (counterexample): on an open key that has neither a value nor a
subkey named `NOPE`, `__getitem__` does not propagate the underlying
not-found failure — it returns a fresh unopened `RegKey` for the
nonexistent subkey, because `get_sub_key` never consults the registry. -/
theorem c1_counterexample :
    findVal (RegTree.values tEmpty) "NOPE".data = none ∧
    SubKeys.find (RegTree.subkeys tEmpty) "NOPE".data = none ∧
    RegKey.getitem kEmpty "NOPE".data =
      .ok (.inr (RegKey.mk "HKEY_CURRENT_USER".data "Sw\\NOPE".data
        HKEY_CURRENT_USER none false)) :=
  ⟨rfl, rfl, rfl⟩

/-- C1 (amended): on an open key, `__getitem__` returns a `RegValue` when a
value of that name exists; when no value of that name exists it returns a
fresh unopened `RegKey` on the joined sub-path regardless of whether such a
subkey exists (existence is only checked at the later open); and a
`KeyNotOpenException` from the value lookup is always re-raised, never
turned into a subkey fallback. -/
theorem c1_amended_getitem (k : RegKey) (t : RegTree) (nm n : Str)
    (hopen : k.key = some t) (hnm : lookupName HKEY_MAP k.hkey = some nm) :
    (∀ d ty, findVal (RegTree.values t) n = some (d, ty) →
      RegKey.getitem k n = .ok (.inl (RegValue.mk n d ty))) ∧
    (findVal (RegTree.values t) n = none →
      RegKey.getitem k n = .ok (.inr (RegKey.mk nm (ntJoin2 k.path n) k.hkey none k.deep))) ∧
    (∀ k' : RegKey, k'.key = none → RegKey.getitem k' n = .error .keyNotOpen) := by
  refine ⟨?_, ?_, ?_⟩
  · intro d ty hval
    simp [RegKey.getitem, RegKey.get_value, winreg_QueryValueEx, hopen, hval]
  · intro hval
    simp [RegKey.getitem, RegKey.get_value, winreg_QueryValueEx, hopen, hval,
      PyErr.isWindowsError, RegKey.get_sub_key, RegKey.init, hnm]
  · intro k' hclosed
    simp [RegKey.getitem, RegKey.get_value, hclosed]

/-- C1 (witness): the three behaviours at concrete inputs. -/
theorem c1_amended_getitem_witness :
    RegKey.getitem kC2 "A".data = .ok (.inl (RegValue.mk "A".data (.num 1) 4)) ∧
    RegKey.getitem kC2 "NOPE".data =
      .ok (.inr (RegKey.mk "HKEY_CURRENT_USER".data "Soft\\NOPE".data
        HKEY_CURRENT_USER none false)) ∧
    RegKey.getitem kClosed "A".data = .error .keyNotOpen :=
  ⟨(c1_amended_getitem kC2 tC2 "HKEY_CURRENT_USER".data "A".data rfl rfl).1 (.num 1) 4 rfl,
   (c1_amended_getitem kC2 tC2 "HKEY_CURRENT_USER".data "NOPE".data rfl rfl).2.1 rfl,
   (c1_amended_getitem kC2 tC2 "HKEY_CURRENT_USER".data "A".data rfl rfl).2.2 kClosed rfl⟩

/-- C2 (counterexample): `to_dict(keep_type=True)` on the key with values
`{A: 1, B: "x"}` and subkey `C` holding `{D: 2}` does not return `RegValue`
instances at all leaf entries: the nested `D` entry is the raw `2`, because
the recursive call `key.to_dict()` does not forward `keep_type`. -/
theorem c2_counterexample :
    toDictImpl envC2 10 kC2 true = some (.ok dC2keep) ∧
    PyDict.leavesRV dC2keep = false ∧
    PyDict.get dC2keep "C".data =
      some (PyDictVal.dict (PyDict.cons "D".data (.raw (.num 2)) .nil)) :=
  ⟨rfl, rfl, rfl⟩

/-- C2 (amended): on the key with values `{A: 1, B: "x"}` and subkey `C`
holding `{D: 2}`, `to_dict()` returns `{A: 1, B: "x", C: {D: 2}}` with raw
data as leaves; `to_dict(keep_type=True)` returns `RegValue` objects (with
the right `.data`) for the direct values `A` and `B` only, while the nested
mapping under `C` still holds raw data, since the recursive call uses the
default `keep_type=False`. -/
theorem c2_amended_to_dict :
    toDictImpl envC2 10 kC2 false = some (.ok dC2raw) ∧
    toDictImpl envC2 10 kC2 true = some (.ok dC2keep) ∧
    (RegValue.mk "A".data (.num 1) 4).data = RegData.num 1 ∧
    (RegValue.mk "B".data (.str "x") 1).data = RegData.str "x" :=
  ⟨rfl, rfl, rfl, rfl⟩

/-- C3: parsing a valid root-qualified path with no explicit root — the
split's first segment upper-cases to a canonical root name, and there is at
least one further well-formed segment — succeeds; the produced root
identifier's canonical name (per `HKEY_MAP`) is exactly the upper-cased
first segment, and the relative path is the remaining segments rejoined
with the separator. -/
theorem c3_parse_root (path root : Str) (rest : List Str) (d : Bool)
    (hsplit : pySplit sep path = root :: rest)
    (hroot : pyUpper root ∈ HKEY_MAP.map Prod.snd)
    (hne : rest ≠ []) (hsegs : ∀ s ∈ rest, s ≠ [] ∧ sep ∉ s) :
    RegKey.init path none d =
      .ok (RegKey.mk (pyUpper root) (joinSegs rest)
        ((winregNumAttr (pyUpper root)).getD 0) none d) ∧
    lookupName HKEY_MAP ((winregNumAttr (pyUpper root)).getD 0) = some (pyUpper root) := by
  obtain ⟨hk, hattr, hname⟩ := root_name_resolves hroot
  rw [hattr]
  simp only [Option.getD_some]
  refine ⟨?_, hname⟩
  cases rest with
  | nil => exact absurd rfl hne
  | cons r0 r' =>
    have h0 := hsegs r0 (List.mem_cons_self r0 r')
    have hfold : List.foldl ntJoin2 r0 r' = joinSegs (r0 :: r') :=
      foldl_ntJoin2_eq_joinSegs r' r0 h0.1 (not_mem_of_getLast?_ne h0.1 h0.2)
        (fun s hs => hsegs s (List.mem_cons_of_mem r0 hs))
    simp [RegKey.init, hsplit, osPathJoin, hfold, hattr]

/-- C3 (witness): parsing `HKEY_CURRENT_USER\Software\Python`. -/
theorem c3_parse_root_witness :
    RegKey.init "HKEY_CURRENT_USER\\Software\\Python".data none false =
      .ok (RegKey.mk (pyUpper "HKEY_CURRENT_USER".data)
        (joinSegs ["Software".data, "Python".data])
        ((winregNumAttr (pyUpper "HKEY_CURRENT_USER".data)).getD 0) none false) ∧
    lookupName HKEY_MAP ((winregNumAttr (pyUpper "HKEY_CURRENT_USER".data)).getD 0) =
      some (pyUpper "HKEY_CURRENT_USER".data) :=
  c3_parse_root "HKEY_CURRENT_USER\\Software\\Python".data "HKEY_CURRENT_USER".data
    ["Software".data, "Python".data] false rfl (by decide) (by decide) (by decide)

/-- C4 (counterexample): `REG_SZ` names no root in the fixed root table,
yet `RegKey("REG_SZ\foo")` succeeds (because `getattr` finds the numeric
`winreg.REG_SZ` constant), and an explicit unknown identifier `42` fails
with a `KeyError` from the `HKEY_MAP[hkey]` dict lookup, not with
`UnknownHkeyException`. -/
theorem c4_counterexample :
    memB "REG_SZ".data (HKEY_MAP.map Prod.snd) = false ∧
    RegKey.init "REG_SZ\\foo".data none false =
      .ok (RegKey.mk "REG_SZ".data "foo".data 1 none false) ∧
    RegKey.init "foo".data (some 42) false = .error .keyError :=
  ⟨rfl, rfl, rfl⟩

/-- C4 (amended): with no explicit root, construction fails with
`UnknownHkeyException` only when the upper-cased first segment matches no
numeric attribute of the `winreg` module (non-root numeric constants such
as `REG_SZ` are accepted as roots); with an explicit root identifier
missing from the fixed table, construction fails with a `KeyError`.  In
both failing cases no handle is constructed. -/
theorem c4_amended_unknown_root (path root : Str) (rest : List Str) (p2 : Str)
    (hk2 : Nat) (d : Bool)
    (hsplit : pySplit sep path = root :: rest)
    (hne : rest ≠ []) (hsegs : ∀ s ∈ rest, s ≠ [] ∧ sep ∉ s)
    (hunk : winregNumAttr (pyUpper root) = none)
    (hk2unk : lookupName HKEY_MAP hk2 = none) :
    RegKey.init path none d = .error .unknownHkey ∧
    RegKey.init p2 (some hk2) d = .error .keyError := by
  constructor
  · cases rest with
    | nil => exact absurd rfl hne
    | cons r0 r' =>
      have h0 := hsegs r0 (List.mem_cons_self r0 r')
      have hfold : List.foldl ntJoin2 r0 r' = joinSegs (r0 :: r') :=
        foldl_ntJoin2_eq_joinSegs r' r0 h0.1 (not_mem_of_getLast?_ne h0.1 h0.2)
          (fun s hs => hsegs s (List.mem_cons_of_mem r0 hs))
      simp [RegKey.init, hsplit, osPathJoin, hfold, hunk]
  · simp [RegKey.init, hk2unk]

/-- C4 (witness): `NOT_A_ROOT\a` raises `UnknownHkeyException`; explicit
root `42` raises `KeyError`. -/
theorem c4_amended_unknown_root_witness :
    RegKey.init "NOT_A_ROOT\\a".data none false = .error .unknownHkey ∧
    RegKey.init "x".data (some 42) false = .error .keyError :=
  c4_amended_unknown_root "NOT_A_ROOT\\a".data "NOT_A_ROOT".data ["a".data] "x".data
    42 false rfl (by decide) (by decide) (by decide) (by decide)

/-- C5: `__exit__` always succeeds, releasing the native handle and
resetting the key to the closed state, whatever pending exception it is
invoked with, and also when the handle slot is already cleared (CPython's
`CloseKey` accepts `None` as a no-op). -/
theorem c5_close_always_resets (k : RegKey) (exc : Option PyErr) :
    RegKey.exit k exc = .ok (RegKey.mk k.hkey_name k.path k.hkey none k.deep) := rfl

/-- C6 (counterexample): the enumeration loop swallows a permission-denied
`WindowsError` exactly like the exhaustion signal — probing with a source
that always raises `WinError 5` yields a clean empty enumeration instead of
propagating the failure, even though that error is not the exhaustion
signal. -/
theorem c6_counterexample :
    enumAll denyProbe 5 0 = some (.ok []) ∧
    accessDenied ≠ noMoreData :=
  ⟨rfl, by decide⟩

/-- C6 (amended): the index-probe loop of `enum_keys`/`enum_values`
terminates enumeration on every `WindowsError` alike — the exhaustion
signal, permission denied, invalid handle — silently swallowing it; only
failures outside the `WindowsError` family propagate to the caller. -/
theorem c6_amended_enum_swallow {α : Type} (f : Nat → Except PyErr α) (i fuel : Nat)
    (e : PyErr) (h : f i = .error e) :
    enumAll f (fuel + 1) i =
      if e.isWindowsError then some (.ok []) else some (.error e) := by
  rw [enumAll_succ, h]

/-- C6 (witness): the swallow branch at a concrete probe. -/
theorem c6_amended_enum_swallow_witness :
    enumAll denyProbe (4 + 1) 0 =
      if (PyErr.windowsError accessDenied).isWindowsError then some (.ok [])
      else some (.error (.windowsError accessDenied)) :=
  c6_amended_enum_swallow denyProbe 0 4 (.windowsError accessDenied) rfl

/-- C7: on an open well-formed key, `__iter__` yields exactly the
tree-level sequence: first a `RegValue` for every enumerated value, then
for every child key the derived unopened handle followed (when `_deep`)
by the child's own items flattened in place; the open/close trace is
well-nested (every recursively-opened descendant handle is closed by the
end, each child before its next sibling), every yielded key handle is
unopened, and with `_deep` unset the yield is exactly the direct values
followed by the direct unopened subkey handles with an empty trace. -/
theorem c7_iterate (env : Env) (hk : Nat) (nm p : Str) (t : RegTree) (dp : Bool)
    (fuel : Nat) (hnm : lookupName HKEY_MAP hk = some nm) (hopen : opensTo env hk p t)
    (hp : goodPathB p = true) (hwf : RegTree.wfB t = true) (hfuel : treeFuel t ≤ fuel) :
    iterImpl env fuel (RegKey.mk nm p hk (some t) dp) =
      some (.ok (specIterate dp hk nm p t, specTrace dp p t)) ∧
    allItemsClosed (specIterate dp hk nm p t) = true ∧
    balAux (specTrace dp p t) [] = true ∧
    specTrace false p t = [] ∧
    specIterate false hk nm p t =
      (RegTree.values t).map (fun vt => RegItem.value (RegValue.mk vt.1 vt.2.1 vt.2.2)) ++
        (SubKeys.names (RegTree.subkeys t)).map
          (fun n => RegItem.key (RegKey.mk nm (ntJoin2 p n) hk none false)) := by
  refine ⟨iterImpl_sound fuel env hk nm hnm p t dp hopen hp hwf hfuel,
    specIterate_closed dp hk nm p t, ?_, specTrace_false p t, ?_⟩
  · have hb := specTrace_bal dp p t [] []
    simpa using hb
  · cases t with
    | node vs sks =>
      simp [specIterate, RegTree.values, RegTree.subkeys, specIterKids_false]

/-- C7 (witness): recursive iteration over the two-level example tree. -/
theorem c7_iterate_witness :
    iterImpl envC2 10 (RegKey.mk "HKEY_CURRENT_USER".data "Soft".data
        HKEY_CURRENT_USER (some tC2) true) =
      some (.ok (specIterate true HKEY_CURRENT_USER "HKEY_CURRENT_USER".data
        "Soft".data tC2, specTrace true "Soft".data tC2)) ∧
    allItemsClosed (specIterate true HKEY_CURRENT_USER "HKEY_CURRENT_USER".data
      "Soft".data tC2) = true ∧
    balAux (specTrace true "Soft".data tC2) [] = true ∧
    specTrace false "Soft".data tC2 = [] ∧
    specIterate false HKEY_CURRENT_USER "HKEY_CURRENT_USER".data "Soft".data tC2 =
      (RegTree.values tC2).map (fun vt => RegItem.value (RegValue.mk vt.1 vt.2.1 vt.2.2)) ++
        (SubKeys.names (RegTree.subkeys tC2)).map
          (fun n => RegItem.key (RegKey.mk "HKEY_CURRENT_USER".data
            (ntJoin2 "Soft".data n) HKEY_CURRENT_USER none false)) :=
  c7_iterate envC2 HKEY_CURRENT_USER "HKEY_CURRENT_USER".data "Soft".data tC2 true 10
    rfl rfl (by decide) (by decide) (by decide)

/-- C8: a key that has been opened and then closed (its `__exit__` ran)
rejects every read operation — `get_value`, `__getitem__`, `get_sub_key`,
`enum_keys`, `enum_values`, `__iter__` and `to_dict` — with
`KeyNotOpenException`. -/
theorem c8_closed_ops_fail (env : Env) (k k' : RegKey) (exc : Option PyErr)
    (fuel : Nat) (n sub : Str) (dopt : Option Bool) (kt : Bool)
    (hclose : RegKey.exit k exc = .ok k') :
    RegKey.get_value k' n = .error .keyNotOpen ∧
    RegKey.getitem k' n = .error .keyNotOpen ∧
    RegKey.get_sub_key k' sub dopt = .error .keyNotOpen ∧
    RegKey.enum_keys k' fuel = some (.error .keyNotOpen) ∧
    RegKey.enum_values k' fuel = some (.error .keyNotOpen) ∧
    iterImpl env (fuel + 1) k' = some (.error .keyNotOpen) ∧
    toDictImpl env (fuel + 1) k' kt = some (.error .keyNotOpen) := by
  have hexit : RegKey.exit k exc =
      .ok (RegKey.mk k.hkey_name k.path k.hkey none k.deep) := rfl
  rw [hexit] at hclose
  have hk' : RegKey.mk k.hkey_name k.path k.hkey none k.deep = k' := by
    injection hclose
  subst hk'
  refine ⟨rfl, rfl, rfl, rfl, rfl, ?_, ?_⟩
  · rw [iterImpl]
    rfl
  · rw [toDictImpl]
    rfl

/-- C8 (witness): the closed handle left by closing `kC2`. -/
theorem c8_closed_ops_fail_witness :
    RegKey.get_value kClosed "A".data = .error .keyNotOpen ∧
    RegKey.getitem kClosed "A".data = .error .keyNotOpen ∧
    RegKey.get_sub_key kClosed "C".data none = .error .keyNotOpen ∧
    RegKey.enum_keys kClosed 3 = some (.error .keyNotOpen) ∧
    RegKey.enum_values kClosed 3 = some (.error .keyNotOpen) ∧
    iterImpl envC2 (3 + 1) kClosed = some (.error .keyNotOpen) ∧
    toDictImpl envC2 (3 + 1) kClosed false = some (.error .keyNotOpen) :=
  c8_closed_ops_fail envC2 kC2 kClosed none 3 "A".data "C".data none false rfl

/-- C9: on an open well-formed key having both a value named `X` and a
subkey named `X`, `to_dict()`'s `X` entry is the subkey's nested mapping:
the value entry is written first and the subkey entry, written later in the
subkey loop, overwrites it. -/
theorem c9_collision (env : Env) (hk : Nat) (nm p : Str) (t tX : RegTree) (dp : Bool)
    (fuel : Nat) (X : Str) (dX : RegData) (tyX : Nat)
    (hnm : lookupName HKEY_MAP hk = some nm) (hopen : opensTo env hk p t)
    (hp : goodPathB p = true) (hwf : RegTree.wfB t = true) (hfuel : treeFuel t ≤ fuel)
    (hval : findVal (RegTree.values t) X = some (dX, tyX))
    (hsub : SubKeys.find (RegTree.subkeys t) X = some tX) :
    toDictImpl env fuel (RegKey.mk nm p hk (some t) dp) false =
      some (.ok (toDictSpec false t)) ∧
    PyDict.get (toDictSpec false t) X = some (PyDictVal.dict (toDictSpec false tX)) := by
  refine ⟨toDictImpl_sound fuel env hk nm hnm p t dp false hopen hp hwf hfuel, ?_⟩
  cases t with
  | node vs sks =>
    simp only [toDictSpec]
    exact toDictSubs_get_find sks (valsFold false vs) X tX
      (by simpa only [RegTree.wfB] using hwf) (by simpa only [RegTree.subkeys] using hsub)

/-- C9 (witness): the collision key `{X: 7}` with subkey `X` holding
`{D: 2}`. -/
theorem c9_collision_witness :
    toDictImpl envC9 10 (RegKey.mk "HKEY_CURRENT_USER".data "Coll".data
        HKEY_CURRENT_USER (some tC9) false) false =
      some (.ok (toDictSpec false tC9)) ∧
    PyDict.get (toDictSpec false tC9) "X".data =
      some (PyDictVal.dict (toDictSpec false tC9sub)) :=
  c9_collision envC9 HKEY_CURRENT_USER "HKEY_CURRENT_USER".data "Coll".data tC9 tC9sub
    false 10 "X".data (.num 7) 4 rfl rfl (by decide) (by decide) (by decide) rfl rfl

/-- C10: a path containing no separator — including a bare valid root name
such as `HKEY_CURRENT_USER` — makes construction with no explicit root fail
with a `TypeError` (from `os.path.join` on an empty list of remaining
segments), before the root-name lookup is ever consulted: the result is a
`TypeError` for every such path, never success and never
`UnknownHkeyException`. -/
theorem c10_bare_root_typeerror (p : Str) (d : Bool) (h : sep ∉ p) :
    RegKey.init p none d = .error .typeError := by
  simp [RegKey.init, pySplit_of_not_mem sep p h, osPathJoin]

/-- C10 (witness): the bare valid root name. -/
theorem c10_bare_root_typeerror_witness :
    sep ∉ "HKEY_CURRENT_USER".data ∧
    RegKey.init "HKEY_CURRENT_USER".data none false = .error .typeError :=
  ⟨by decide, c10_bare_root_typeerror "HKEY_CURRENT_USER".data false (by decide)⟩

end Winregal
